import Mathlib

/-!
Verification development for the Realm distributed reservation subsystem
(src/runtime/realm/rsrv_impl.cc). The reservation state machine, its message
handlers, the deferred continuations, the fast-reservation state word and the
fallback retry counter are embedded shallowly as executable Lean definitions,
and the behavioural claims about them are settled as theorems below.
-/

namespace RsrvModel

/-! ## Constants

MODE_EXCL is derivable from the source: ReservationImpl.init sets mode to 0 and
create_reservation asserts mode == MODE_EXCL right after init; grant messages
use mode 0 to mean exclusive. ZERO_COUNT is declared in the header, which is
not part of src. Modelled from the spec: ZERO_COUNT is a bias constant added to
count so that the no-holders state is a nonzero sentinel; every comparison in
the source is relative to it, so its numeric value is immaterial. We fix an
arbitrary nonzero value. -/

def MODE_EXCL : Nat := 0

def ZERO_COUNT : Nat := 0x11223344

/-- Events are modelled as numeric ids; 0 plays the role of Event NO_EVENT,
and Event.exists corresponds to being nonzero. -/
def NO_EVENT : Nat := 0

/-! ## Ordered-map helpers

The source keeps local_waiters, retry_events and retry_count in std::map
containers (keys are modes). We model them as association lists; begin() of a
std::map is the entry with the least key, modelled by mMinEntry. -/

/-- Lookup in an association list, as std::map find. -/
def mfind {α : Type} (m : List (Nat × α)) (k : Nat) : Option α :=
  match m with
  | [] => none
  | p :: rest => if p.fst = k then some p.snd else mfind rest k

/-- Replace the value stored under an existing key. -/
def mReplace {α : Type} (m : List (Nat × α)) (k : Nat) (v : α) : List (Nat × α) :=
  m.map (fun p => if p.fst = k then (k, v) else p)

/-- Erase a key, as std::map erase. -/
def mErase {α : Type} (m : List (Nat × α)) (k : Nat) : List (Nat × α) :=
  m.filter (fun p => p.fst != k)

/-- The entry with the least key, as the begin() iterator of a std::map. -/
def mMinEntry {α : Type} (m : List (Nat × α)) : Option (Nat × α) :=
  match m with
  | [] => none
  | p :: rest =>
    match mMinEntry rest with
    | none => some p
    | some q => if p.fst ≤ q.fst then some p else some q

/-- The keys of the map. -/
def mKeys {α : Type} (m : List (Nat × α)) : List Nat :=
  m.map Prod.fst

/-- Well-formedness of the association-list encoding of a std::map: every key
occurs at most once. -/
def keysNodup {α : Type} (m : List (Nat × α)) : Prop :=
  (mKeys m).Nodup

/-- Increment a counter map entry, as retry_count[mode]++ on a std::map whose
operator[] default-constructs the value 0. -/
def mBump (m : List (Nat × Nat)) (k : Nat) : List (Nat × Nat) :=
  match mfind m k with
  | some v => mReplace m k (v + 1)
  | none => m ++ [(k, 1)]

/-- Append one waiter event at the back of the list stored for a mode, as
local_waiters[mode].push_back(e). -/
def mPushWaiter (m : List (Nat × List Nat)) (k : Nat) (e : Nat) : List (Nat × List Nat) :=
  match mfind m k with
  | some l => mReplace m k (l ++ [e])
  | none => m ++ [(k, [e])]

/-- The least element of a node set. Corresponds to the scan in
ReservationImpl.release that starts new_owner at 0 and increments until
remote_waiter_mask contains it. -/
def nsMin (l : List Nat) : Option Nat :=
  match l with
  | [] => none
  | x :: rest =>
    match nsMin rest with
    | none => some x
    | some y => some (min x y)

/-! ## Reservation replica state

Translated from the fields of ReservationImpl used by rsrv_impl.cc (owner,
count, mode, local_waiters, retry_events, retry_count, remote_waiter_mask,
remote_sharer_mask, requested, in_use, local_data). The creator field stands
for ID(me).rsrv_creator_node(), and next_event is the id supply standing for
GenEventImpl.create_genevent, so that freshly created events are the nonzero
values next_event + 1. Payload bytes are a list of numbers; local_data_size is
the length of local_data. -/

structure ReservationState where
  creator : Nat
  owner : Nat
  count : Nat
  mode : Nat
  local_waiters : List (Nat × List Nat)
  retry_events : List (Nat × Nat)
  retry_count : List (Nat × Nat)
  remote_waiter_mask : List Nat
  remote_sharer_mask : List Nat
  requested : Bool
  in_use : Bool
  local_data : List Nat
  next_event : Nat
deriving DecidableEq, Repr

/-- Acquire types, from the AcquireType enumeration used throughout
rsrv_impl.cc. -/
inductive AcquireType
| blocking
| nonblocking
| nonblockingRetry
| nonblockingPlaceholder
deriving DecidableEq, Repr

/-! ## select_local_waiters (rsrv_impl.cc lines 628-677)

Returns the updated state, the events to wake and the any-local flag. A none
result models a failed assertion (count must exceed ZERO_COUNT after a group
grant, and popping the front of an empty waiter list is undefined). -/

def ReservationImpl.select_local_waiters (s : ReservationState) :
    Option (ReservationState × List Nat × Bool) :=
  if s.local_waiters = [] ∧ s.retry_events = [] then some (s, [], false)
  else
    match mfind s.local_waiters MODE_EXCL with
    | some excl_waiters =>
      match excl_waiters with
      | [] => none
      | e :: rest =>
        some ({ s with
                local_waiters :=
                  if rest = [] then mErase s.local_waiters MODE_EXCL
                  else mReplace s.local_waiters MODE_EXCL rest,
                mode := MODE_EXCL,
                count := ZERO_COUNT + 1 }, [e], true)
    | none =>
      match mMinEntry s.local_waiters, mMinEntry s.retry_events with
      | some kl, none =>
        if kl.snd.length = 0 then none
        else some ({ s with
                     mode := kl.fst,
                     count := ZERO_COUNT + kl.snd.length,
                     local_waiters := mErase s.local_waiters kl.fst }, kl.snd, true)
      | some kl, some ke =>
        if kl.fst ≤ ke.fst then
          if kl.snd.length = 0 then none
          else some ({ s with
                       mode := kl.fst,
                       count := ZERO_COUNT + kl.snd.length,
                       local_waiters := mErase s.local_waiters kl.fst }, kl.snd, true)
        else
          some ({ s with retry_events := mErase s.retry_events ke.fst }, [ke.snd], true)
      | none, some ke =>
        some ({ s with retry_events := mErase s.retry_events ke.fst }, [ke.snd], true)
      | none, none => none

/-- Specification of waiter selection transcribed from the text of claim C4:
an exclusive blocking waiter is served first (one waiter, mode EXCL, count
ZERO_COUNT + 1); otherwise the numerically lowest mode present across
local_waiters and retry_events is chosen, a tie going to the blocking group;
a blocking group is woken whole with count ZERO_COUNT + group size, while a
retry mode wakes only its single retry token. -/
def select_spec (s : ReservationState) : Option (ReservationState × List Nat × Bool) :=
  if s.local_waiters = [] ∧ s.retry_events = [] then some (s, [], false)
  else
    match mfind s.local_waiters MODE_EXCL with
    | some excl_waiters =>
      match excl_waiters with
      | [] => none
      | e :: rest =>
        some ({ s with
                local_waiters :=
                  if rest = [] then mErase s.local_waiters MODE_EXCL
                  else mReplace s.local_waiters MODE_EXCL rest,
                mode := MODE_EXCL,
                count := ZERO_COUNT + 1 }, [e], true)
    | none =>
      match nsMin (mKeys s.local_waiters ++ mKeys s.retry_events) with
      | none => none
      | some k =>
        match mfind s.local_waiters k with
        | some l =>
          if l.length = 0 then none
          else some ({ s with
                       mode := k,
                       count := ZERO_COUNT + l.length,
                       local_waiters := mErase s.local_waiters k }, l, true)
        | none =>
          match mfind s.retry_events k with
          | some e => some ({ s with retry_events := mErase s.retry_events k }, [e], true)
          | none => none

/-! ## acquire (rsrv_impl.cc lines 414-621) -/

/-- Result of ReservationImpl.acquire: the updated replica, the returned
event, the got-lock flag, the node a LockRequest message is sent to after the
mutex is dropped (if any), and the bonus-grant events triggered after the
mutex is dropped. -/
structure AcqResult where
  st : ReservationState
  ret : Nat
  got : Bool
  req : Option Nat
  bonus : List Nat
deriving DecidableEq, Repr

/-- The grantability test of the local-owner case of acquire (lines 457-460):
count == ZERO_COUNT, or same non-exclusive mode with no local waiter at the
begin() of the map having a key not above the current mode. -/
def noHigherPriorityWaiter (m : List (Nat × List Nat)) (mode : Nat) : Bool :=
  match mMinEntry m with
  | none => true
  | some kl => decide (mode < kl.fst)

/-- The retry-count decrement applied when a nonblocking retry succeeds
(lines 522-530); the assert that the entry exists is modelled by none. Shared
tail of every path of acquire on which got_lock is true. -/
def acquireGrantFinish (st2 : ReservationState) (bonus : List Nat)
    (aty : AcquireType) (new_mode after0 : Nat) : Option AcqResult :=
  if aty = AcquireType.nonblockingRetry then
    match mfind st2.retry_count new_mode with
    | none => none
    | some v =>
      some ⟨{ st2 with retry_count :=
                if v > 1 then mReplace st2.retry_count new_mode (v - 1)
                else mErase st2.retry_count new_mode },
            after0, true, none, bonus⟩
  else some ⟨st2, after0, true, none, bonus⟩

/-- The waiter-parking switch of acquire (lines 534-585), applied when
got_lock is false. BLOCKING creates a fresh event when none was supplied and
pushes it on local_waiters; NONBLOCKING bumps retry_count and creates or
reuses the retry event of the mode; NONBLOCKING_RETRY does the same without
the bump. The asserts that no caller-supplied event exists on the nonblocking
paths, and the assert(0) default, are modelled by none. -/
def enqueueWaiter (s : ReservationState) (aty : AcquireType) (new_mode after0 : Nat)
    (req : Option Nat) : Option AcqResult :=
  match aty with
  | AcquireType.blocking =>
    if after0 = NO_EVENT then
      some ⟨{ s with
              local_waiters := mPushWaiter s.local_waiters new_mode (s.next_event + 1),
              next_event := s.next_event + 1 },
            s.next_event + 1, false, req, []⟩
    else
      some ⟨{ s with local_waiters := mPushWaiter s.local_waiters new_mode after0 },
            after0, false, req, []⟩
  | AcquireType.nonblocking =>
    if after0 ≠ NO_EVENT then none
    else
      match mfind s.retry_events new_mode with
      | some e => some ⟨{ s with retry_count := mBump s.retry_count new_mode }, e, false, req, []⟩
      | none =>
        some ⟨{ s with
                retry_count := mBump s.retry_count new_mode,
                retry_events := s.retry_events ++ [(new_mode, s.next_event + 1)],
                next_event := s.next_event + 1 },
              s.next_event + 1, false, req, []⟩
  | AcquireType.nonblockingRetry =>
    if after0 ≠ NO_EVENT then none
    else
      match mfind s.retry_events new_mode with
      | some e => some ⟨s, e, false, req, []⟩
      | none =>
        some ⟨{ s with
                retry_events := s.retry_events ++ [(new_mode, s.next_event + 1)],
                next_event := s.next_event + 1 },
              s.next_event + 1, false, req, []⟩
  | AcquireType.nonblockingPlaceholder => none

/-- ReservationImpl.acquire (lines 414-621). self stands for
Network::my_node_id. Exclusivity is collapsed into the mode first; a
placeholder acquire only bumps retry_count; the local-owner case grants by the
grantability test and sweeps same-mode waiters and retry events into bonus
grants on a shared grant; the remote-owner case grants only to an existing
same-mode sharing, and otherwise records the LockRequest target and sets
requested. A none result models a failed assertion. -/
def ReservationImpl.acquire (self : Nat) (s : ReservationState) (new_mode0 : Nat)
    (exclusive : Bool) (aty : AcquireType) (after0 : Nat) : Option AcqResult :=
  let new_mode := if exclusive then MODE_EXCL else new_mode0
  if s.creator = self ∧ s.in_use = false then none
  else if aty = AcquireType.nonblockingPlaceholder then
    some ⟨{ s with retry_count := mBump s.retry_count new_mode }, NO_EVENT, false, none, []⟩
  else if s.owner = self then
    if s.count = ZERO_COUNT ∨
        (s.mode = new_mode ∧ s.mode ≠ MODE_EXCL ∧
         noHigherPriorityWaiter s.local_waiters s.mode = true) then
      let st1 := { s with mode := new_mode, count := s.count + 1 }
      if new_mode = MODE_EXCL then
        acquireGrantFinish st1 [] aty new_mode after0
      else
        acquireGrantFinish
          { st1 with
            local_waiters := mErase st1.local_waiters new_mode,
            retry_events := mErase st1.retry_events new_mode }
          ((mfind s.local_waiters new_mode).getD [] ++
            (match mfind s.retry_events new_mode with
             | some e => [e]
             | none => []))
          aty new_mode after0
    else
      enqueueWaiter s aty new_mode after0 none
  else
    if s.count > ZERO_COUNT ∧ s.mode = new_mode then
      if s.mode = MODE_EXCL then none
      else acquireGrantFinish { s with count := s.count + 1 } [] aty new_mode after0
    else
      if s.requested then enqueueWaiter s aty new_mode after0 none
      else enqueueWaiter { s with requested := true } aty new_mode after0 (some s.owner)

/-- Grantability condition transcribed literally from the text of claim C3:
count is ZERO_COUNT, or the current mode equals the effective requested mode,
is not exclusive, and no local waiter is registered under a numerically
smaller mode. -/
def grantable_spec_claim (s : ReservationState) (eff : Nat) : Prop :=
  s.count = ZERO_COUNT ∨
    (s.mode = eff ∧ eff ≠ MODE_EXCL ∧ ∀ k ∈ mKeys s.local_waiters, ¬ k < s.mode)

instance (s : ReservationState) (eff : Nat) : Decidable (grantable_spec_claim s eff) := by
  unfold grantable_spec_claim; infer_instance

/-- Grantability condition of claim C3 amended as the code has it: no local
waiter may be registered under a numerically smaller or equal mode. -/
def grantable_spec_amended (s : ReservationState) (eff : Nat) : Prop :=
  s.count = ZERO_COUNT ∨
    (s.mode = eff ∧ eff ≠ MODE_EXCL ∧ ∀ k ∈ mKeys s.local_waiters, s.mode < k)

instance (s : ReservationState) (eff : Nat) : Decidable (grantable_spec_amended s eff) := by
  unfold grantable_spec_amended; infer_instance

/-! ## release (rsrv_impl.cc lines 679-811) -/

/-- A LockGrant message scheduled by release or by the LockRequest handler:
destination node, granted mode (always 0, exclusive), the snapshot of the
remaining remote waiters, and the local data payload. -/
structure GrantMsg where
  target : Nat
  gmode : Nat
  waiters : List Nat
  payload : List Nat
deriving DecidableEq, Repr

/-- Result of ReservationImpl.release: updated replica, events to wake, the
node a LockRelease message goes to (if any) and the LockGrant message
scheduled (if any). -/
structure RelResult where
  st : ReservationState
  to_wake : List Nat
  release_to : Option Nat
  grant : Option GrantMsg
deriving DecidableEq, Repr

/-- ReservationImpl.release (lines 679-811). The count is decremented; a
remaining holder just returns; a non-owner replica resets its mode and sends
LockRelease to the owner; an owner replica first tries select_local_waiters,
then, if nothing local was woken, grants to the least remote waiter provided
retry_count is empty, and finally asserts that the waiter structures and the
remote mask are empty. A none result models a failed assertion. -/
def ReservationImpl.release (self : Nat) (s : ReservationState) : Option RelResult :=
  if s.count ≤ ZERO_COUNT then none
  else
    let s1 := { s with count := s.count - 1 }
    if s1.count > ZERO_COUNT then some ⟨s1, [], none, none⟩
    else if s1.owner ≠ self then
      if s1.mode = MODE_EXCL then none
      else some ⟨{ s1 with mode := 0 }, [], some s1.owner, none⟩
    else
      match ReservationImpl.select_local_waiters s1 with
      | none => none
      | some (s2, wake, anyLocal) =>
        if anyLocal then
          if wake = [] then none
          else some ⟨s2, wake, none, none⟩
        else
          if s2.remote_waiter_mask ≠ [] ∧ s2.retry_count = [] then
            match nsMin s2.remote_waiter_mask with
            | none => none
            | some new_owner =>
              let mask2 := s2.remote_waiter_mask.filter (fun x => x != new_owner)
              if s2.local_waiters = [] ∧ s2.retry_events = [] then
                some ⟨{ s2 with owner := new_owner, remote_waiter_mask := [] },
                      [], none, some ⟨new_owner, 0, mask2, s2.local_data⟩⟩
              else none
          else
            if s2.local_waiters = [] ∧ s2.retry_events = [] ∧ s2.remote_waiter_mask = [] then
              some ⟨s2, [], none, none⟩
            else none

/-! ## Message handlers -/

/-- Arguments and payload of a LockGrant message: the mode field, the list of
waiter node ids carried in the payload (whose length is the waiter_count
word), and the data bytes that follow them. -/
structure GrantArgs where
  gmode : Nat
  waiters : List Nat
  data : List Nat
deriving DecidableEq, Repr

/-- LockGrantMessage.handle_message (rsrv_impl.cc lines 364-412). Asserts
that the replica is not the owner and has requested set, and that the payload
length matches local_data_size; then overwrites remote_waiter_mask with the
snapshot, copies the payload into local_data when there is any, takes
ownership exactly when the granted mode is 0, sets mode and clears requested,
and finally selects local waiters, asserting that some were found. Returns
the updated replica and the events to wake; none models a failed assertion. -/
def LockGrantMessage.handle_message (self : Nat) (s : ReservationState) (args : GrantArgs) :
    Option (ReservationState × List Nat) :=
  if s.owner = self then none
  else if s.requested = false then none
  else if args.data.length ≠ s.local_data.length then none
  else
    let s1 := { s with
                remote_waiter_mask := args.waiters,
                local_data := if s.local_data.length > 0 then args.data else s.local_data,
                owner := if args.gmode = 0 then self else s.owner,
                mode := args.gmode,
                requested := false }
    match ReservationImpl.select_local_waiters s1 with
    | none => none
    | some (s2, wake, anyLocal) =>
      if anyLocal then some (s2, wake) else none

/-- LockReleaseMessage.handle_message (rsrv_impl.cc lines 356-361). The body
of the handler is assert(0): it unconditionally aborts and performs no state
transition, which none models. -/
def LockReleaseMessage.handle_message (self : Nat) (s : ReservationState) :
    Option (ReservationState × List Nat) :=
  none

/-! ## Deferred continuations (rsrv_impl.cc lines 39-118) -/

/-- One token trigger performed by a continuation, with its poison flag. -/
structure TriggerAction where
  ev : Nat
  poisoned : Bool
deriving DecidableEq, Repr

/-- Result of firing a deferred continuation: the reservation state afterward,
the token triggers performed, and whether a warning was logged. -/
structure DeferredResult where
  st : ReservationState
  triggers : List TriggerAction
  warned : Bool
deriving DecidableEq, Repr

/-- DeferredLockRequest.event_triggered (lines 47-61): a poisoned
precondition leaves the reservation untouched and triggers the output token
poisoned; otherwise a blocking acquire runs, triggering the output token on
grant and any bonus grants. -/
def DeferredLockRequest.event_triggered (self : Nat) (s : ReservationState)
    (mode : Nat) (exclusive : Bool) (after_lock : Nat) (poisoned : Bool) :
    Option DeferredResult :=
  if poisoned then some ⟨s, [⟨after_lock, true⟩], false⟩
  else
    match ReservationImpl.acquire self s mode exclusive AcquireType.blocking after_lock with
    | none => none
    | some r =>
      some ⟨r.st,
            (if r.got = true ∧ r.ret ≠ NO_EVENT then [⟨r.ret, false⟩] else []) ++
              r.bonus.map (fun e => ⟨e, false⟩),
            false⟩

/-- DeferredUnlockRequest.event_triggered (lines 92-104): a poisoned
precondition skips the release entirely, logging a warning and triggering
nothing; otherwise the release runs and its woken events are triggered. -/
def DeferredUnlockRequest.event_triggered (self : Nat) (s : ReservationState)
    (poisoned : Bool) : Option DeferredResult :=
  if poisoned then some ⟨s, [], true⟩
  else
    match ReservationImpl.release self s with
    | none => none
    | some r => some ⟨r.st, r.to_wake.map (fun e => ⟨e, false⟩), false⟩

/-! ## Concrete states used by counterexamples and witnesses -/

/-- An idle creator-node replica: owner is node 0, no holders, no waiters. -/
def idleState : ReservationState :=
  { creator := 0, owner := 0, count := ZERO_COUNT, mode := 0,
    local_waiters := [], retry_events := [], retry_count := [],
    remote_waiter_mask := [], remote_sharer_mask := [], requested := false,
    in_use := true, local_data := [], next_event := 0 }

/-- A replica of node 1 viewed from node 0 that has requested the lock and
has one nonblocking retry token queued under mode 2; used to exercise the
LockGrant handler. -/
def grantTestState : ReservationState :=
  { idleState with owner := 1, requested := true, retry_events := [(2, 7)] }

/-- A LockGrant message carrying mode 0, waiter_count 0 and no data bytes:
the boundary payload that claim C5 singles out. -/
def grantTestArgs : GrantArgs := ⟨0, [], []⟩

/-! ## FastReservation state word (rsrv_impl.cc lines 1008-1530)

The state word is a packed machine word. Modelled from the spec: the header
declaring the State bit constants is not part of src; the spec fixes a low
READER_COUNT field with the WRITER, WRITER_WAITING, BASE_RSRV,
BASE_RSRV_WAITING, SLEEPER and SLOW_FALLBACK flags above it, so we assign the
reader count to the low 26 bits and one flag per higher bit. All claims are
insensitive to the concrete positions. -/

def STATE_READER_COUNT_MASK : Nat := 0x03ffffff

def STATE_BASE_RSRV : Nat := 0x04000000

def STATE_BASE_RSRV_WAITING : Nat := 0x08000000

def STATE_WRITER : Nat := 0x10000000

def STATE_WRITER_WAITING : Nat := 0x20000000

def STATE_SLEEPER : Nat := 0x40000000

def STATE_SLOW_FALLBACK : Nat := 0x80000000

/-- The 32-bit complement of STATE_SLEEPER plus STATE_READER_COUNT_MASK: the
bits a speculative reader must see clear in the pre-increment word to keep the
lock (rdlock_slow line 1292 and tryrdlock_slow line 1436). -/
def STATE_NON_READER_MASK : Nat :=
  STATE_SLOW_FALLBACK ||| STATE_WRITER_WAITING ||| STATE_WRITER |||
    STATE_BASE_RSRV_WAITING ||| STATE_BASE_RSRV

/-- The control state of one thread working on a FastReservation: idle (not
holding, possibly spinning), having loaded the state word inside rdlock,
having speculatively incremented the reader count and remembering the
fetch_add result, holding a read lock, or holding the write lock. -/
inductive FRThread
| idle
| rdloaded (c : Nat)
| rdpending (prev : Nat)
| holdR
| holdW
deriving DecidableEq, Repr

/-- Contribution of a thread to the reader count stored in the word: both
committed readers and speculative pending increments are counted. -/
def cHoldR : FRThread → Nat
| FRThread.holdR => 1
| _ => 0

/-- Contribution of a thread in the speculative pending-reader stage. -/
def cPend : FRThread → Nat
| FRThread.rdpending _ => 1
| _ => 0

/-- Contribution of a write-lock holder. -/
def cHoldW : FRThread → Nat
| FRThread.holdW => 1
| _ => 0

/-- Number of threads holding a read lock. -/
def nHoldR (ts : List FRThread) : Nat := (ts.map cHoldR).sum

/-- Number of threads with a speculative reader-count increment in flight. -/
def nPend (ts : List FRThread) : Nat := (ts.map cPend).sum

/-- Number of threads holding the write lock. -/
def nHoldW (ts : List FRThread) : Nat := (ts.map cHoldW).sum

/-- One atomic transition of the FastReservation state word together with the
control step of the thread performing it. Translated from the non-fallback
paths of wrlock of the header plus wrlock_slow (lines 1047-1083), trywrlock
(lines 1179-1189), rdlock_slow (lines 1273-1308), tryrdlock_slow (lines
1427-1446) and unlock plus unlock_slow (lines 1488-1527), restricted to a
FastReservation built without an underlying reservation (the BASE_RSRV,
SLEEPER and SLOW_FALLBACK features are never enabled from the initial word 0
by the lock, trylock and unlock operations themselves). -/
inductive FRStep : Nat × List FRThread → Nat × List FRThread → Prop
| rdload (w : Nat) (ts : List FRThread) (i : Nat)
    (h : ts[i]? = some FRThread.idle) :
    FRStep (w, ts) (w, ts.set i (FRThread.rdloaded w))
| rdinc (w : Nat) (ts : List FRThread) (i c : Nat)
    (h : ts[i]? = some (FRThread.rdloaded c))
    (hc1 : c &&& (STATE_SLOW_FALLBACK ||| STATE_BASE_RSRV ||| STATE_BASE_RSRV_WAITING) = 0)
    (hc2 : c &&& (STATE_WRITER ||| STATE_WRITER_WAITING) = 0) :
    FRStep (w, ts) (w + 1, ts.set i (FRThread.rdpending w))
| rdok (w : Nat) (ts : List FRThread) (i prev : Nat)
    (h : ts[i]? = some (FRThread.rdpending prev))
    (hp : prev &&& STATE_NON_READER_MASK = 0) :
    FRStep (w, ts) (w, ts.set i FRThread.holdR)
| rdfail (w : Nat) (ts : List FRThread) (i prev : Nat)
    (h : ts[i]? = some (FRThread.rdpending prev))
    (hp : prev &&& STATE_NON_READER_MASK ≠ 0) :
    FRStep (w, ts) (w - 1, ts.set i FRThread.idle)
| wrcas (w : Nat) (ts : List FRThread) (i : Nat)
    (h : ts[i]? = some FRThread.idle)
    (hw : w = 0 ∨ w = STATE_WRITER_WAITING) :
    FRStep (w, ts) (STATE_WRITER, ts.set i FRThread.holdW)
| wrww (w : Nat) (ts : List FRThread) (i : Nat)
    (h : ts[i]? = some FRThread.idle)
    (hg : w &&& (STATE_SLOW_FALLBACK ||| STATE_BASE_RSRV |||
                 STATE_BASE_RSRV_WAITING ||| STATE_SLEEPER) = 0) :
    FRStep (w, ts) (w ||| STATE_WRITER_WAITING, ts)
| unlockw (w : Nat) (ts : List FRThread) (i : Nat)
    (h : ts[i]? = some FRThread.holdW) :
    FRStep (w, ts) (w - STATE_WRITER, ts.set i FRThread.idle)
| unlockr (w : Nat) (ts : List FRThread) (i : Nat)
    (h : ts[i]? = some FRThread.holdR) :
    FRStep (w, ts) (w - 1, ts.set i FRThread.idle)

/-- Reachability of a FastReservation configuration under any interleaving of
the lock, trylock and unlock operations of n threads, from the initial word 0
with every thread idle. -/
inductive FRReach (n : Nat) : Nat × List FRThread → Prop
| init : FRReach n (0, List.replicate n FRThread.idle)
| step (cfg cfg2 : Nat × List FRThread) (h : FRReach n cfg) (hs : FRStep cfg cfg2) :
    FRReach n cfg2

/-- Auxiliary invariant of the FastReservation transition system: the word is
exactly the reader-count field (committed plus speculative readers) plus the
writer and writer-waiting flag bits; there is at most one writer; and while
the writer holds the lock there is no committed reader and every speculative
reader saw a dirty pre-increment word, so it will back out. -/
def FRInv (n : Nat) (cfg : Nat × List FRThread) : Prop :=
  cfg.snd.length = n ∧
  ∃ wwf : Nat, wwf ≤ 1 ∧
    cfg.fst = (nHoldR cfg.snd + nPend cfg.snd) + nHoldW cfg.snd * STATE_WRITER +
      wwf * STATE_WRITER_WAITING ∧
    nHoldW cfg.snd ≤ 1 ∧
    (nHoldW cfg.snd = 1 →
      nHoldR cfg.snd = 0 ∧
      ∀ (i prev : Nat), cfg.snd[i]? = some (FRThread.rdpending prev) →
        prev &&& STATE_NON_READER_MASK ≠ 0)

/-! ## Fallback retry counter (rsrv_impl.cc lines 1008-1044, 1156-1176,
1250-1270, 1404-1424) -/

/-- The acquire-type selection of the four SLOW_FALLBACK slow paths: an
observed counter value of 0 selects ACQUIRE_NONBLOCKING (and the loop exits
without a decrement), anything else selects ACQUIRE_NONBLOCKING_RETRY and the
compare-and-swap decrements the counter. -/
def fallbackChoose (c : Int) : AcquireType :=
  if c = 0 then AcquireType.nonblocking else AcquireType.nonblockingRetry

/-- Values reachable by the process-wide fallback_retry_count, which starts
at 0. A dec step is a successful compare-and-swap from an observed value for
which the selection chose ACQUIRE_NONBLOCKING_RETRY; an inc step is the
fetch_add performed when the nonblocking acquire returned a pending event. -/
inductive FallbackReach : Int → Prop
| init : FallbackReach 0
| dec (c : Int) (h : FallbackReach c)
    (hc : fallbackChoose c = AcquireType.nonblockingRetry) : FallbackReach (c - 1)
| inc (c : Int) (h : FallbackReach c) : FallbackReach (c + 1)

/-! ## Helper lemmas about the map encoding -/

theorem mMinEntry_eq_none {α : Type} (m : List (Nat × α)) :
    mMinEntry m = none ↔ m = [] := by
  cases m with
  | nil => simp [mMinEntry]
  | cons p rest =>
    simp only [mMinEntry]
    cases h : mMinEntry rest with
    | none => simp
    | some q => by_cases hle : p.fst ≤ q.fst <;> simp [hle]

theorem mMinEntry_le {α : Type} (m : List (Nat × α)) (kl : Nat × α)
    (h : mMinEntry m = some kl) : ∀ k ∈ mKeys m, kl.fst ≤ k := by
  induction m generalizing kl with
  | nil => simp [mMinEntry] at h
  | cons p rest ih =>
    simp only [mMinEntry] at h
    cases hr : mMinEntry rest with
    | none =>
      rw [hr] at h
      have hempty : rest = [] := (mMinEntry_eq_none rest).mp hr
      subst hempty
      simp at h
      subst h
      simp [mKeys]
    | some q =>
      rw [hr] at h
      have hq := ih q hr
      by_cases hle : p.fst ≤ q.fst
      · simp [hle] at h
        subst h
        intro k hk
        simp [mKeys] at hk
        rcases hk with hk | hk
        · omega
        · have := hq k (by simp [mKeys]; exact hk)
          omega
      · simp [hle] at h
        subst h
        intro k hk
        simp [mKeys] at hk
        rcases hk with hk | hk
        · omega
        · exact hq k (by simp [mKeys]; exact hk)

theorem mMinEntry_mem {α : Type} (m : List (Nat × α)) (kl : Nat × α)
    (h : mMinEntry m = some kl) : kl ∈ m := by
  induction m generalizing kl with
  | nil => simp [mMinEntry] at h
  | cons p rest ih =>
    simp only [mMinEntry] at h
    cases hr : mMinEntry rest with
    | none =>
      rw [hr] at h
      simp at h
      subst h
      simp
    | some q =>
      rw [hr] at h
      by_cases hle : p.fst ≤ q.fst
      · simp [hle] at h; subst h; simp
      · simp [hle] at h
        subst h
        exact List.mem_cons_of_mem _ (ih q hr)

theorem noHigherPriorityWaiter_iff (m : List (Nat × List Nat)) (mode : Nat) :
    noHigherPriorityWaiter m mode = true ↔ ∀ k ∈ mKeys m, mode < k := by
  unfold noHigherPriorityWaiter
  cases h : mMinEntry m with
  | none =>
    have hempty : m = [] := (mMinEntry_eq_none m).mp h
    subst hempty
    simp [mKeys]
  | some kl =>
    simp only [decide_eq_true_eq]
    constructor
    · intro hlt k hk
      have := mMinEntry_le m kl h k hk
      omega
    · intro hall
      have hmem := mMinEntry_mem m kl h
      exact hall kl.fst (by simp [mKeys]; exact ⟨kl.snd, hmem⟩)

/-! ## Claim C1 -/

/-- Claim C1 counterexample: at a replica of node 0 holding one exclusive
count, a local release succeeds and performs a state transition, while the
LockRelease message handler aborts (its body is assert(0)) and performs no
transition at all, refuting the claim that the handler behaves like a local
release. -/
theorem lock_release_handler_is_not_release :
    (ReservationImpl.release 0 { idleState with count := ZERO_COUNT + 1 }).isSome = true ∧
    LockReleaseMessage.handle_message 0 { idleState with count := ZERO_COUNT + 1 } = none := by
  constructor
  · decide
  · rfl

/-- Claim C1 amended: for every incoming LockRelease message, at any replica,
the handler unconditionally aborts (assert(0)) and performs no state
transition. -/
theorem lock_release_handler_always_aborts :
    ∀ (self : Nat) (s : ReservationState),
      LockReleaseMessage.handle_message self s = none := by
  intro self s
  rfl

/-! ## Claim C2 -/

/-- Claim C2: evaluation of the code at the failing input. Node 0 owns the
reservation and holds one exclusive count, a nonblocking retry is outstanding
(retry_count has one entry) and node 1 waits remotely. The release brings the
count to ZERO_COUNT, wakes nobody, correctly refuses to migrate ownership
because retry_count is nonempty, and then fails the trailing
assert(remote_waiter_mask.empty()), aborting instead of leaving the replica
idle as the claim states. -/
theorem release_aborts_with_remote_waiter_and_pending_retry :
    ReservationImpl.release 0
      { idleState with
        count := ZERO_COUNT + 1,
        retry_count := [(MODE_EXCL, 1)],
        remote_waiter_mask := [1] } = none := by
  decide

/-! ## Claim C9 -/

/-- Claim C9: a deferred acquire whose precondition fires poisoned leaves the
reservation state untouched and triggers its output token with the poison
flag set; a deferred release whose precondition fires poisoned leaves the
state untouched, logs a warning and triggers no token. -/
theorem deferred_poison_behavior :
    ∀ (self : Nat) (s : ReservationState) (mode : Nat) (exclusive : Bool) (after_lock : Nat),
      DeferredLockRequest.event_triggered self s mode exclusive after_lock true =
        some ⟨s, [⟨after_lock, true⟩], false⟩ ∧
      DeferredUnlockRequest.event_triggered self s true = some ⟨s, [], true⟩ := by
  intro self s mode exclusive after_lock
  exact ⟨rfl, rfl⟩

/-! ## Claim C10 -/

/-- Claim C10: the process-wide fallback retry counter never becomes
negative. Every reachable value of fallback_retry_count is nonnegative: a
decrement happens only through a compare-and-swap taken when the observed
value made fallbackChoose select ACQUIRE_NONBLOCKING_RETRY, which requires a
nonzero (hence, inductively, positive) value, and the increment after a
pending nonblocking acquire only raises the value. -/
theorem fallback_retry_count_nonneg (c : Int) (h : FallbackReach c) : 0 ≤ c := by
  induction h with
  | init => omega
  | dec c h hc ih =>
    have hne : c ≠ 0 := by
      intro h0
      subst h0
      simp [fallbackChoose] at hc
    omega
  | inc c h ih => omega

/-- Witness for claim C10: the value 1 is reachable (one pending nonblocking
attempt), and the theorem yields its nonnegativity. -/
theorem fallback_retry_count_nonneg_witness :
    FallbackReach 1 ∧ 0 ≤ (1 : Int) :=
  ⟨FallbackReach.inc 0 FallbackReach.init,
   fallback_retry_count_nonneg 1 (FallbackReach.inc 0 FallbackReach.init)⟩

/-! ## Claim C8 -/

/-- Claim C8: on an idle creator-node replica (owner is this node, count is
ZERO_COUNT, no waiter structures, empty remote mask), a blocking exclusive
acquire succeeds immediately returning NO_EVENT, and the subsequent release
restores the replica to the pre-acquire state: owner unchanged, count back to
ZERO_COUNT, and all waiter structures and the remote mask empty. -/
theorem solo_exclusive_roundtrip (self : Nat) (s : ReservationState)
    (hown : s.owner = self) (hcnt : s.count = ZERO_COUNT)
    (hlw : s.local_waiters = []) (hre : s.retry_events = [])
    (hrc : s.retry_count = []) (hmask : s.remote_waiter_mask = [])
    (hin : s.in_use = true) :
    ∃ r r2 : _,
      ReservationImpl.acquire self s 0 true AcquireType.blocking NO_EVENT = some r ∧
      r.ret = NO_EVENT ∧ r.got = true ∧
      ReservationImpl.release self r.st = some r2 ∧
      r2.st.owner = s.owner ∧ r2.st.count = ZERO_COUNT ∧
      r2.st.local_waiters = [] ∧ r2.st.retry_events = [] ∧
      r2.st.retry_count = [] ∧ r2.st.remote_waiter_mask = [] := by
  have hacq : ReservationImpl.acquire self s 0 true AcquireType.blocking NO_EVENT =
      some ⟨{ s with mode := MODE_EXCL, count := s.count + 1 }, NO_EVENT, true, none, []⟩ := by
    unfold ReservationImpl.acquire acquireGrantFinish
    simp [hin, hown, hcnt]
  have hc1 : ¬ (s.count + 1 ≤ ZERO_COUNT) := by omega
  have hc2 : ¬ (s.count + 1 - 1 > ZERO_COUNT) := by omega
  have hc3 : s.count + 1 - 1 = ZERO_COUNT := by omega
  have hrel : ReservationImpl.release self { s with mode := MODE_EXCL, count := s.count + 1 } =
      some ⟨{ s with mode := MODE_EXCL, count := s.count + 1 - 1 }, [], none, none⟩ := by
    unfold ReservationImpl.release ReservationImpl.select_local_waiters
    simp [hc1, hc2, hown, hlw, hre, hmask]
  exact ⟨_, _, hacq, rfl, rfl, hrel, hown.symm ▸ rfl, hc3, hlw, hre, hrc, hmask⟩

/-- Witness for claim C8 at the concrete idle creator replica of node 0. -/
theorem solo_exclusive_roundtrip_witness :
    (idleState.owner = 0 ∧ idleState.count = ZERO_COUNT ∧
     idleState.local_waiters = [] ∧ idleState.retry_events = [] ∧
     idleState.retry_count = [] ∧ idleState.remote_waiter_mask = [] ∧
     idleState.in_use = true) ∧
    (∃ r r2 : _,
      ReservationImpl.acquire 0 idleState 0 true AcquireType.blocking NO_EVENT = some r ∧
      r.ret = NO_EVENT ∧ r.got = true ∧
      ReservationImpl.release 0 r.st = some r2 ∧
      r2.st.owner = idleState.owner ∧ r2.st.count = ZERO_COUNT ∧
      r2.st.local_waiters = [] ∧ r2.st.retry_events = [] ∧
      r2.st.retry_count = [] ∧ r2.st.remote_waiter_mask = []) :=
  ⟨⟨rfl, rfl, rfl, rfl, rfl, rfl, rfl⟩,
   solo_exclusive_roundtrip 0 idleState rfl rfl rfl rfl rfl rfl rfl⟩

/-! ## Claim C6 -/

/-- Claim C6 counterexample: from the idle creator replica (owner is self,
count is ZERO_COUNT, all waiter maps empty), an acquire of type
ACQUIRE_NONBLOCKING_PLACEHOLDER succeeds and leaves the replica idle with a
nonempty retry_count, refuting the claimed invariant that retry_count is
empty whenever owner is self and count is ZERO_COUNT, and in particular
refuting its preservation by the placeholder acquire. -/
theorem placeholder_acquire_breaks_idle_invariant :
    ReservationImpl.acquire 0 idleState 3 false AcquireType.nonblockingPlaceholder NO_EVENT =
      some ⟨{ idleState with retry_count := [(3, 1)] }, NO_EVENT, false, none, []⟩ ∧
    ({ idleState with retry_count := [(3, 1)] } : ReservationState).owner = 0 ∧
    ({ idleState with retry_count := [(3, 1)] } : ReservationState).count = ZERO_COUNT ∧
    ({ idleState with retry_count := [(3, 1)] } : ReservationState).retry_count ≠ [] := by
  exact ⟨by decide, rfl, rfl, by decide⟩

/-- Claim C6 amended: what the code maintains is weaker than claimed. Any
non-aborting release that leaves the replica owned by this node with count at
ZERO_COUNT and woke no waiter leaves local_waiters and retry_events empty;
retry_count is not covered (a placeholder acquire raises it on an idle
replica). -/
theorem release_to_idle_with_no_wake_empties_waiters (self : Nat) (s : ReservationState)
    (r : RelResult) (h : ReservationImpl.release self s = some r)
    (hown : r.st.owner = self) (hcnt : r.st.count = ZERO_COUNT) (hwake : r.to_wake = []) :
    r.st.local_waiters = [] ∧ r.st.retry_events = [] := by
  unfold ReservationImpl.release at h
  simp only [] at h
  split at h
  · exact absurd h (by simp)
  split at h
  · rename_i hgt2
    rw [Option.some_inj] at h
    subst h
    simp at hcnt
    omega
  split at h
  · -- the replica does not own the lock: owner stays unchanged
    rename_i hgt hgt2 hnotown
    split at h
    · exact absurd h (by simp)
    · rw [Option.some_inj] at h
      subst h
      simp at hown
      exact absurd hown hnotown
  -- owner case: split on the result of select_local_waiters
  rename_i hgt hgt2 hownself
  split at h
  · exact absurd h (by simp)
  case h_2 x s2 wake anyLocal heq =>
    cases anyLocal
    case true =>
      -- anyLocal is true: something was woken, contradicting hwake
      rw [if_pos rfl] at h
      by_cases hW : wake = []
      · rw [if_pos hW] at h
        exact absurd h (by simp)
      · rw [if_neg hW] at h
        rw [Option.some_inj] at h
        subst h
        simp at hwake
        exact absurd hwake hW
    case false =>
    -- anyLocal is false
    rw [if_neg (by simp)] at h
    by_cases hM : s2.remote_waiter_mask ≠ [] ∧ s2.retry_count = []
    · -- remote grant path: the trailing asserts supply the conclusion
      rw [if_pos hM] at h
      cases hmin : nsMin s2.remote_waiter_mask with
      | none =>
        rw [hmin] at h
        exact absurd h (by simp)
      | some new_owner =>
        rw [hmin] at h
        simp only [] at h
        by_cases hE : s2.local_waiters = [] ∧ s2.retry_events = []
        · rw [if_pos hE] at h
          rw [Option.some_inj] at h
          subst h
          exact ⟨hE.1, hE.2⟩
        · rw [if_neg hE] at h
          exact absurd h (by simp)
    · -- idle path: the trailing asserts supply the conclusion
      rw [if_neg hM] at h
      by_cases hE : s2.local_waiters = [] ∧ s2.retry_events = [] ∧ s2.remote_waiter_mask = []
      · rw [if_pos hE] at h
        rw [Option.some_inj] at h
        subst h
        exact ⟨hE.1, hE.2.1⟩
      · rw [if_neg hE] at h
        exact absurd h (by simp)

/-- Witness for the amended claim C6 at a concrete release of the last
exclusive count on the creator replica of node 0. -/
theorem release_to_idle_witness :
    (ReservationImpl.release 0 { idleState with count := ZERO_COUNT + 1 } =
      some ⟨idleState, [], none, none⟩) ∧
    (idleState.local_waiters = [] ∧ idleState.retry_events = []) :=
  ⟨by decide,
   release_to_idle_with_no_wake_empties_waiters 0
     { idleState with count := ZERO_COUNT + 1 } ⟨idleState, [], none, none⟩
     (by decide) rfl rfl rfl⟩

/-! ## Claim C3 -/

theorem acquireGrantFinish_some (st2 : ReservationState) (bonus : List Nat)
    (aty : AcquireType) (new_mode after0 : Nat) (r : AcqResult)
    (h : acquireGrantFinish st2 bonus aty new_mode after0 = some r) :
    r.got = true ∧ r.st.mode = st2.mode ∧ r.st.count = st2.count := by
  unfold acquireGrantFinish at h
  split at h
  · split at h
    · exact absurd h (by simp)
    · rw [Option.some_inj] at h
      subst h
      exact ⟨rfl, rfl, rfl⟩
  · rw [Option.some_inj] at h
    subst h
    exact ⟨rfl, rfl, rfl⟩

theorem enqueueWaiter_got_false (s : ReservationState) (aty : AcquireType)
    (new_mode after0 : Nat) (req : Option Nat) (r : AcqResult)
    (h : enqueueWaiter s aty new_mode after0 req = some r) : r.got = false := by
  cases aty
  case blocking =>
    simp only [enqueueWaiter] at h
    split at h <;> (rw [Option.some_inj] at h; subst h; rfl)
  case nonblocking =>
    simp only [enqueueWaiter] at h
    split at h
    · exact absurd h (by simp)
    · split at h <;> (rw [Option.some_inj] at h; subst h; rfl)
  case nonblockingRetry =>
    simp only [enqueueWaiter] at h
    split at h
    · exact absurd h (by simp)
    · split at h <;> (rw [Option.some_inj] at h; subst h; rfl)
  case nonblockingPlaceholder =>
    simp only [enqueueWaiter] at h
    exact absurd h (by simp)

/-- Claim C3 counterexample: node 0 owns the reservation, holds it in shared
mode 5 and has a blocking waiter queued under the same mode 5. There is no
waiter of a numerically smaller mode, so the claim says a further acquire of
mode 5 is granted; the code refuses it, because its guard also rejects a
waiter of an equal mode. -/
theorem acquire_denies_equal_mode_waiter :
    grantable_spec_claim
      { idleState with count := ZERO_COUNT + 1, mode := 5, local_waiters := [(5, [9])] } 5 ∧
    (ReservationImpl.acquire 0
        { idleState with count := ZERO_COUNT + 1, mode := 5, local_waiters := [(5, [9])] }
        5 false AcquireType.blocking NO_EVENT).map AcqResult.got = some false :=
  ⟨by decide, by decide⟩

/-- Claim C3 amended: with owner == self and a non-placeholder acquire type,
the lock is granted exactly when count == ZERO_COUNT, or the current mode
equals the effective requested mode, is not EXCL, and no local waiter is
registered under a numerically smaller or equal mode; on grant the mode is
set to the effective mode and count rises by exactly one. -/
theorem acquire_grant_iff_amended (self : Nat) (s : ReservationState) (m : Nat)
    (excl : Bool) (aty : AcquireType) (after0 : Nat) (r : AcqResult) (eff : Nat)
    (heff : eff = if excl then MODE_EXCL else m)
    (hown : s.owner = self)
    (hty : aty ≠ AcquireType.nonblockingPlaceholder)
    (h : ReservationImpl.acquire self s m excl aty after0 = some r) :
    (r.got = true ↔ grantable_spec_amended s eff) ∧
    (r.got = true → r.st.mode = eff ∧ r.st.count = s.count + 1) := by
  unfold ReservationImpl.acquire at h
  simp only [] at h
  rw [← heff] at h
  by_cases hcr : s.creator = self ∧ s.in_use = false
  · rw [if_pos hcr] at h
    exact absurd h (by simp)
  rw [if_neg hcr, if_neg hty, if_pos hown] at h
  by_cases hg : s.count = ZERO_COUNT ∨
      (s.mode = eff ∧ s.mode ≠ MODE_EXCL ∧
       noHigherPriorityWaiter s.local_waiters s.mode = true)
  · -- the code grants
    rw [if_pos hg] at h
    have hfin : r.got = true ∧ r.st.mode = eff ∧ r.st.count = s.count + 1 := by
      by_cases he : eff = MODE_EXCL
      · rw [if_pos he] at h
        exact acquireGrantFinish_some _ _ _ _ _ _ h
      · rw [if_neg he] at h
        exact acquireGrantFinish_some _ _ _ _ _ _ h
    refine ⟨⟨fun _ => ?_, fun _ => hfin.1⟩, fun _ => hfin.2⟩
    rcases hg with hg | ⟨h1, h2, h3⟩
    · exact Or.inl hg
    · refine Or.inr ⟨h1, h1 ▸ h2, ?_⟩
      exact (noHigherPriorityWaiter_iff s.local_waiters s.mode).mp h3
  · -- the code refuses
    rw [if_neg hg] at h
    have hgot : r.got = false := enqueueWaiter_got_false _ _ _ _ _ _ h
    constructor
    · rw [hgot]
      constructor
      · intro hfalse
        exact absurd hfalse (by simp)
      · intro hspec
        exfalso
        apply hg
        rcases hspec with hspec | ⟨h1, h2, h3⟩
        · exact Or.inl hspec
        · exact Or.inr ⟨h1, h1 ▸ h2,
            (noHigherPriorityWaiter_iff s.local_waiters s.mode).mpr h3⟩
    · intro hgot2
      rw [hgot] at hgot2
      exact absurd hgot2 (by simp)

/-- Witness for the amended claim C3: a blocking exclusive acquire on the
idle creator replica of node 0 is granted, satisfying the amended
grantability condition, with mode set to EXCL and count raised by one. -/
theorem acquire_grant_iff_amended_witness :
    (ReservationImpl.acquire 0 idleState 0 true AcquireType.blocking NO_EVENT =
      some ⟨{ idleState with mode := MODE_EXCL, count := ZERO_COUNT + 1 },
            NO_EVENT, true, none, []⟩) ∧
    (((⟨{ idleState with mode := MODE_EXCL, count := ZERO_COUNT + 1 },
        NO_EVENT, true, none, []⟩ : AcqResult).got = true ↔
        grantable_spec_amended idleState MODE_EXCL) ∧
     ((⟨{ idleState with mode := MODE_EXCL, count := ZERO_COUNT + 1 },
        NO_EVENT, true, none, []⟩ : AcqResult).got = true →
        (⟨{ idleState with mode := MODE_EXCL, count := ZERO_COUNT + 1 },
          NO_EVENT, true, none, []⟩ : AcqResult).st.mode = MODE_EXCL ∧
        (⟨{ idleState with mode := MODE_EXCL, count := ZERO_COUNT + 1 },
          NO_EVENT, true, none, []⟩ : AcqResult).st.count = idleState.count + 1)) :=
  ⟨by decide,
   acquire_grant_iff_amended 0 idleState 0 true AcquireType.blocking NO_EVENT
     ⟨{ idleState with mode := MODE_EXCL, count := ZERO_COUNT + 1 },
      NO_EVENT, true, none, []⟩
     MODE_EXCL rfl rfl (by decide) (by decide)⟩

/-! ## Claim C5 -/

theorem mfind_mem {α : Type} (m : List (Nat × α)) (k : Nat) (v : α)
    (h : mfind m k = some v) : (k, v) ∈ m := by
  induction m with
  | nil => simp [mfind] at h
  | cons p rest ih =>
    simp only [mfind] at h
    split at h
    · rename_i hpk
      rw [Option.some_inj] at h
      have hp : p = (k, v) := by
        cases p
        simp at hpk h
        rw [hpk, h]
      rw [hp]
      exact List.mem_cons_self _ _
    · exact List.mem_cons_of_mem _ (ih h)

/-- When the waiter maps are not both empty and no stored waiter list is
empty, select_local_waiters succeeds with the any-local flag set, wakes at
least one event, and leaves the ownership-related fields untouched. -/
theorem select_some_true_of_nonempty (s : ReservationState)
    (hne : ¬ (s.local_waiters = [] ∧ s.retry_events = []))
    (hwf : ∀ p ∈ s.local_waiters, p.snd ≠ []) :
    ∃ s2 wake,
      ReservationImpl.select_local_waiters s = some (s2, wake, true) ∧ wake ≠ [] ∧
      s2.remote_waiter_mask = s.remote_waiter_mask ∧
      s2.local_data = s.local_data ∧
      s2.owner = s.owner ∧
      s2.requested = s.requested := by
  unfold ReservationImpl.select_local_waiters
  rw [if_neg hne]
  cases hf : mfind s.local_waiters MODE_EXCL with
  | some l =>
    cases l with
    | nil => exact absurd rfl (hwf _ (mfind_mem _ _ _ hf))
    | cons e rest =>
      refine ⟨_, _, rfl, ?_, rfl, rfl, rfl, rfl⟩
      simp
  | none =>
    simp only []
    cases hL : mMinEntry s.local_waiters with
    | some kl =>
      have hmem := mMinEntry_mem _ _ hL
      have hlen : kl.snd.length ≠ 0 := by
        intro h0
        exact hwf kl hmem (List.eq_nil_of_length_eq_zero h0)
      cases hRe : mMinEntry s.retry_events with
      | none =>
        simp only []
        rw [if_neg hlen]
        refine ⟨_, _, rfl, ?_, rfl, rfl, rfl, rfl⟩
        intro hh
        exact hlen (by rw [hh]; rfl)
      | some ke =>
        simp only []
        by_cases hle : kl.fst ≤ ke.fst
        · rw [if_pos hle, if_neg hlen]
          refine ⟨_, _, rfl, ?_, rfl, rfl, rfl, rfl⟩
          intro hh
          exact hlen (by rw [hh]; rfl)
        · rw [if_neg hle]
          refine ⟨_, _, rfl, ?_, rfl, rfl, rfl, rfl⟩
          simp
    | none =>
      have hlw : s.local_waiters = [] := (mMinEntry_eq_none _).mp hL
      cases hRe : mMinEntry s.retry_events with
      | none =>
        exact absurd ⟨hlw, (mMinEntry_eq_none _).mp hRe⟩ hne
      | some ke =>
        simp only []
        refine ⟨_, _, rfl, ?_, rfl, rfl, rfl, rfl⟩
        simp

/-- Claim C5: a LockGrant received at a replica with requested set (and a
payload whose data segment matches local_data_size, with some local waiter or
retry token queued and no empty waiter group) succeeds: the mid-state feeding
waiter selection has remote_waiter_mask overwritten by the snapshot, the
payload copied into local_data, ownership taken exactly when the granted mode
is 0, the mode taken from the message and requested cleared; waiter selection
runs on it and wakes at least one event. The final state keeps the mask, the
payload, the ownership decision and the cleared requested flag. The
hypotheses admit waiter_count equal to 0 and an empty data payload. -/
theorem lock_grant_handler_updates_and_wakes (self : Nat) (s : ReservationState)
    (args : GrantArgs)
    (hown : ¬ s.owner = self) (hreq : s.requested = true)
    (hlen : args.data.length = s.local_data.length)
    (hne : ¬ (s.local_waiters = [] ∧ s.retry_events = []))
    (hwf : ∀ p ∈ s.local_waiters, p.snd ≠ []) :
    ∃ s2 wake,
      LockGrantMessage.handle_message self s args = some (s2, wake) ∧
      wake ≠ [] ∧
      ReservationImpl.select_local_waiters
        { s with remote_waiter_mask := args.waiters,
                 local_data := args.data,
                 owner := if args.gmode = 0 then self else s.owner,
                 mode := args.gmode,
                 requested := false } = some (s2, wake, true) ∧
      s2.remote_waiter_mask = args.waiters ∧
      s2.local_data = args.data ∧
      (s2.owner = self ↔ args.gmode = 0) ∧
      s2.requested = false := by
  have hld : (if s.local_data.length > 0 then args.data else s.local_data) = args.data := by
    by_cases hl : s.local_data.length > 0
    · rw [if_pos hl]
    · rw [if_neg hl]
      have h1 : s.local_data = [] := List.eq_nil_of_length_eq_zero (by omega)
      have h2 : args.data = [] := List.eq_nil_of_length_eq_zero (by omega)
      rw [h1, h2]
  obtain ⟨s2, wake, hsel, hwne, hmask, hdata, howner2, hreq2⟩ :=
    select_some_true_of_nonempty
      { s with remote_waiter_mask := args.waiters,
               local_data := args.data,
               owner := if args.gmode = 0 then self else s.owner,
               mode := args.gmode,
               requested := false }
      (by simpa using hne) (by simpa using hwf)
  refine ⟨s2, wake, ?_, hwne, hsel, by simpa using hmask, by simpa using hdata, ?_, by simpa using hreq2⟩
  · unfold LockGrantMessage.handle_message
    rw [if_neg hown, if_neg (by simp [hreq]), if_neg (by omega)]
    simp only []
    rw [hld, hsel]
    simp
  · rw [howner2]
    simp only []
    by_cases hg : args.gmode = 0
    · rw [if_pos hg]
      simp [hg]
    · rw [if_neg hg]
      simp [hg]
      exact hown

/-- Witness for claim C5 at a concrete replica and the boundary grant payload
(mode 0, zero waiters, no data bytes). -/
theorem lock_grant_handler_witness :
    (¬ grantTestState.owner = 0) ∧ grantTestState.requested = true ∧
    (∃ s2 wake,
      LockGrantMessage.handle_message 0 grantTestState grantTestArgs = some (s2, wake) ∧
      wake ≠ [] ∧
      ReservationImpl.select_local_waiters
        { grantTestState with
          remote_waiter_mask := grantTestArgs.waiters,
          local_data := grantTestArgs.data,
          owner := if grantTestArgs.gmode = 0 then 0 else grantTestState.owner,
          mode := grantTestArgs.gmode,
          requested := false } = some (s2, wake, true) ∧
      s2.remote_waiter_mask = grantTestArgs.waiters ∧
      s2.local_data = grantTestArgs.data ∧
      (s2.owner = 0 ↔ grantTestArgs.gmode = 0) ∧
      s2.requested = false) :=
  ⟨by decide, rfl,
   lock_grant_handler_updates_and_wakes 0 grantTestState grantTestArgs
     (by decide) rfl rfl (by decide) (by decide)⟩

/-! ## Claim C4 -/

theorem nsMin_append (xs ys : List Nat) :
    nsMin (xs ++ ys) =
      match nsMin xs, nsMin ys with
      | none, r => r
      | some x, none => some x
      | some x, some y => some (min x y) := by
  induction xs with
  | nil =>
    simp only [List.nil_append]
    cases nsMin ys <;> rfl
  | cons x rest ih =>
    simp only [List.cons_append, nsMin, List.append_eq]
    rw [ih]
    cases hr : nsMin rest <;> cases hy : nsMin ys <;>
      simp [min_assoc]

theorem nsMin_mKeys {α : Type} (m : List (Nat × α)) :
    nsMin (mKeys m) = (mMinEntry m).map Prod.fst := by
  induction m with
  | nil => rfl
  | cons p rest ih =>
    simp only [mKeys, List.map_cons, nsMin, mMinEntry]
    rw [show List.map Prod.fst rest = mKeys rest from rfl, ih]
    cases hr : mMinEntry rest with
    | none => rfl
    | some q =>
      by_cases hle : p.fst ≤ q.fst <;> simp [hle, min_def]

theorem mfind_eq_none {α : Type} (m : List (Nat × α)) (k : Nat) :
    mfind m k = none ↔ k ∉ mKeys m := by
  induction m with
  | nil => simp [mfind, mKeys]
  | cons p rest ih =>
    simp only [mfind, mKeys, List.map_cons, List.mem_cons]
    split
    · rename_i hpk
      simp [hpk]
    · rename_i hpk
      rw [ih]
      have hk : ¬ k = p.fst := fun hh => hpk hh.symm
      simp [hk, mKeys]

theorem mfind_mMinEntry {α : Type} (m : List (Nat × α)) (kl : Nat × α)
    (h : mMinEntry m = some kl) : mfind m kl.fst = some kl.snd := by
  induction m generalizing kl with
  | nil => simp [mMinEntry] at h
  | cons p rest ih =>
    simp only [mMinEntry] at h
    cases hr : mMinEntry rest with
    | none =>
      rw [hr] at h
      simp at h
      subst h
      simp [mfind]
    | some q =>
      rw [hr] at h
      by_cases hle : p.fst ≤ q.fst
      · simp [hle] at h
        subst h
        simp [mfind]
      · simp [hle] at h
        subst h
        simp only [mfind]
        rw [if_neg (by omega)]
        exact ih q hr

/-- Claim C4: select_local_waiters behaves exactly as described. An
EXCL-mode blocking waiter is served first, one waiter, with mode EXCL and
count ZERO_COUNT + 1; otherwise the numerically lowest mode present across
local_waiters and retry_events is chosen (a tie going to the blocking group);
a group from local_waiters is woken whole with count ZERO_COUNT + group size,
while a retry mode wakes only its single token. The equality with the
transcription select_spec of the claim covers the degenerate inputs too. -/
theorem select_local_waiters_matches_spec (s : ReservationState) :
    ReservationImpl.select_local_waiters s = select_spec s := by
  unfold ReservationImpl.select_local_waiters select_spec
  by_cases hne : s.local_waiters = [] ∧ s.retry_events = []
  · rw [if_pos hne, if_pos hne]
  rw [if_neg hne, if_neg hne]
  cases hf : mfind s.local_waiters MODE_EXCL with
  | some l => rfl
  | none =>
    simp only []
    rw [nsMin_append, nsMin_mKeys, nsMin_mKeys]
    cases hL : mMinEntry s.local_waiters with
    | none =>
      have hlw : s.local_waiters = [] := (mMinEntry_eq_none _).mp hL
      cases hRe : mMinEntry s.retry_events with
      | none => rfl
      | some ke =>
        simp only [Option.map_some', Option.map_none']
        rw [hlw]
        simp only [mfind]
        rw [mfind_mMinEntry _ _ hRe]
    | some kl =>
      cases hRe : mMinEntry s.retry_events with
      | none =>
        simp only [Option.map_some', Option.map_none']
        rw [mfind_mMinEntry _ _ hL]
      | some ke =>
        simp only [Option.map_some', Option.map_none']
        by_cases hle : kl.fst ≤ ke.fst
        · rw [if_pos hle, min_eq_left hle, mfind_mMinEntry _ _ hL]
        · rw [if_neg hle, min_eq_right (by omega)]
          have hnot : mfind s.local_waiters ke.fst = none := by
            rw [mfind_eq_none]
            intro hmem
            exact hle (mMinEntry_le _ _ hL ke.fst hmem)
          rw [hnot, mfind_mMinEntry _ _ hRe]

/-! ## Claim C7: helper lemmas -/

theorem sum_map_set (f : FRThread → Nat) (l : List FRThread) (i : Nat) (v old : FRThread)
    (h : l[i]? = some old) :
    ((l.set i v).map f).sum + f old = (l.map f).sum + f v := by
  induction l generalizing i with
  | nil => simp at h
  | cons a rest ih =>
    cases i with
    | zero =>
      simp at h
      subst h
      simp [List.set]
      omega
    | succ j =>
      simp at h
      have := ih j h
      simp only [List.set, List.map_cons, List.sum_cons]
      omega

theorem contrib_le_of_getElem (f : FRThread → Nat) (l : List FRThread) (i : Nat)
    (a : FRThread) (h : l[i]? = some a) : f a ≤ (l.map f).sum := by
  induction l generalizing i with
  | nil => simp at h
  | cons b rest ih =>
    cases i with
    | zero =>
      simp at h
      subst h
      simp only [List.map_cons, List.sum_cons]
      exact Nat.le_add_right _ _
    | succ j =>
      simp at h
      have := ih j h
      simp only [List.map_cons, List.sum_cons]
      omega

theorem contrib_sum_le_length (f : FRThread → Nat) (hf : ∀ t, f t ≤ 1) (l : List FRThread) :
    (l.map f).sum ≤ l.length := by
  induction l with
  | nil => simp
  | cons a rest ih =>
    simp
    have := hf a
    omega

theorem getElem?_set_or (l : List FRThread) (i j : Nat) (v a : FRThread)
    (h : (l.set i v)[j]? = some a) : a = v ∨ l[j]? = some a := by
  by_cases hij : i = j
  · subst hij
    rw [List.getElem?_set_self'] at h
    cases hl : l[i]? with
    | none =>
      rw [hl] at h
      simp at h
    | some b =>
      rw [hl] at h
      simp at h
      exact Or.inl h.symm
  · rw [List.getElem?_set_ne hij] at h
    exact Or.inr h

theorem lor_two_pow_of_lt {x k : Nat} (h : x < 2 ^ k) : x ||| 2 ^ k = x + 2 ^ k := by
  apply Nat.eq_of_testBit_eq
  intro i
  rw [Nat.testBit_lor]
  rcases lt_trichotomy i k with hik | hik | hik
  · rw [Nat.add_comm, Nat.testBit_two_pow_add_gt hik,
        Nat.testBit_two_pow_of_ne (by omega : k ≠ i)]
    simp
  · subst hik
    rw [Nat.add_comm, Nat.testBit_two_pow_add_eq, Nat.testBit_eq_false_of_lt h,
        Nat.testBit_two_pow_self]
    simp
  · have h1 : x + 2 ^ k < 2 ^ i := by
      have h2 : 2 ^ (k + 1) ≤ 2 ^ i := Nat.pow_le_pow_right (by omega) (by omega)
      have h3 : 2 ^ (k + 1) = 2 ^ k + 2 ^ k := by ring
      omega
    rw [Nat.testBit_eq_false_of_lt h1,
        Nat.testBit_eq_false_of_lt (by omega : x < 2 ^ i),
        Nat.testBit_two_pow_of_ne (by omega : k ≠ i)]
    rfl

theorem lor_two_pow_of_testBit {x k : Nat} (h : x.testBit k = true) : x ||| 2 ^ k = x := by
  apply Nat.eq_of_testBit_eq
  intro i
  rw [Nat.testBit_lor]
  by_cases hik : i = k
  · subst hik
    rw [h]
    rfl
  · rw [Nat.testBit_two_pow_of_ne (fun hh => hik hh.symm)]
    simp

theorem land_mask_ne_zero_of_testBit (w m k : Nat) (hw : w.testBit k = true)
    (hm : m.testBit k = true) : w &&& m ≠ 0 := by
  intro h0
  have h2 : (w &&& m).testBit k = true := by
    rw [Nat.testBit_land, hw, hm]
    rfl
  rw [h0] at h2
  rw [Nat.zero_testBit] at h2
  exact absurd h2 (by simp)

theorem pending_preserved (ts : List FRThread) (i : Nat) (v : FRThread)
    (hv : ∀ prev : Nat, v ≠ FRThread.rdpending prev)
    (hcl : ∀ (j prev : Nat), ts[j]? = some (FRThread.rdpending prev) →
      prev &&& STATE_NON_READER_MASK ≠ 0) :
    ∀ (j prev : Nat), (ts.set i v)[j]? = some (FRThread.rdpending prev) →
      prev &&& STATE_NON_READER_MASK ≠ 0 := by
  intro j prev hj
  rcases getElem?_set_or ts i j v _ hj with hv2 | hv2
  · exact absurd hv2.symm (hv prev)
  · exact hcl j prev hv2

theorem no_pending_of_sum_zero (ts : List FRThread) (h : nPend ts = 0) :
    ∀ (j prev : Nat), ¬ ts[j]? = some (FRThread.rdpending prev) := by
  intro j prev hj
  have hc := contrib_le_of_getElem cPend ts j _ hj
  simp only [cPend] at hc
  unfold nPend at h
  omega

theorem no_holdR_of_sum_zero (ts : List FRThread) (h : nHoldR ts = 0) :
    ∀ j : Nat, ¬ ts[j]? = some FRThread.holdR := by
  intro j hj
  have hc := contrib_le_of_getElem cHoldR ts j _ hj
  simp only [cHoldR] at hc
  unfold nHoldR at h
  omega

theorem sum_map_add (f g : FRThread → Nat) (l : List FRThread) :
    (l.map (fun t => f t + g t)).sum = (l.map f).sum + (l.map g).sum := by
  induction l with
  | nil => rfl
  | cons a rest ih =>
    simp only [List.map_cons, List.sum_cons, ih]
    omega

theorem readers_pend_le_length (ts : List FRThread) :
    nHoldR ts + nPend ts ≤ ts.length := by
  unfold nHoldR nPend
  rw [← sum_map_add cHoldR cPend ts]
  exact contrib_sum_le_length _ (fun t => by cases t <;> simp [cHoldR, cPend]) ts

/-- The inductive invariant of the FastReservation word transition system:
every reachable configuration of at most STATE_READER_COUNT_MASK threads
satisfies FRInv. -/
theorem frinv_of_reach (n : Nat) (hn : n ≤ STATE_READER_COUNT_MASK)
    (cfg : Nat × List FRThread) (h : FRReach n cfg) : FRInv n cfg := by
  simp only [STATE_READER_COUNT_MASK] at hn
  induction h with
  | init =>
    refine ⟨by simp, 0, by omega, ?_, ?_, ?_⟩
    · simp [nHoldR, nPend, nHoldW, List.map_replicate, cHoldR, cPend, cHoldW]
    · simp [nHoldW, List.map_replicate, cHoldW]
    · simp [nHoldW, List.map_replicate, cHoldW]
  | step cfg cfg2 hreach hstep ih =>
    obtain ⟨hlen, wwf, hwwf, hword, hW, hclause⟩ := ih
    cases hstep with
    | rdload w ts i hi =>
      unfold FRInv
      dsimp only at hlen hword hW hclause ⊢
      have e1 := sum_map_set cHoldR ts i (FRThread.rdloaded w) FRThread.idle hi
      have e2 := sum_map_set cPend ts i (FRThread.rdloaded w) FRThread.idle hi
      have e3 := sum_map_set cHoldW ts i (FRThread.rdloaded w) FRThread.idle hi
      simp only [cHoldR, cPend, cHoldW] at e1 e2 e3
      refine ⟨by simpa using hlen, wwf, hwwf, ?_, ?_, ?_⟩
      · simp only [nHoldR, nPend, nHoldW, STATE_WRITER, STATE_WRITER_WAITING] at hword ⊢
        omega
      · simp only [nHoldW] at hW ⊢
        omega
      · intro hW2
        simp only [nHoldW] at hW2
        have hW1 : nHoldW ts = 1 := by simp only [nHoldW]; omega
        obtain ⟨hR0, hdirty⟩ := hclause hW1
        refine ⟨?_, ?_⟩
        · simp only [nHoldR] at hR0 ⊢
          omega
        · exact pending_preserved ts i _ (fun prev => by simp) hdirty
    | rdinc w ts i c hi hc1 hc2 =>
      unfold FRInv
      dsimp only at hlen hword hW hclause ⊢
      have e1 := sum_map_set cHoldR ts i (FRThread.rdpending w) (FRThread.rdloaded c) hi
      have e2 := sum_map_set cPend ts i (FRThread.rdpending w) (FRThread.rdloaded c) hi
      have e3 := sum_map_set cHoldW ts i (FRThread.rdpending w) (FRThread.rdloaded c) hi
      simp only [cHoldR, cPend, cHoldW] at e1 e2 e3
      refine ⟨by simpa using hlen, wwf, hwwf, ?_, ?_, ?_⟩
      · simp only [nHoldR, nPend, nHoldW, STATE_WRITER, STATE_WRITER_WAITING] at hword ⊢
        omega
      · simp only [nHoldW] at hW ⊢
        omega
      · intro hW2
        simp only [nHoldW] at hW2
        have hW1 : nHoldW ts = 1 := by simp only [nHoldW]; omega
        obtain ⟨hR0, hdirty⟩ := hclause hW1
        have hSle : nHoldR ts + nPend ts ≤ ts.length := readers_pend_le_length ts
        have hwbit : w.testBit 28 = true := by
          rw [Nat.testBit_to_div_mod]
          simp only [decide_eq_true_eq]
          simp only [nHoldR, nPend, nHoldW, STATE_WRITER, STATE_WRITER_WAITING] at hword
          simp only [nHoldR, nPend, nHoldW] at hSle hR0 hW1
          omega
        refine ⟨?_, ?_⟩
        · simp only [nHoldR] at hR0 ⊢
          omega
        · intro j prev hj
          rcases getElem?_set_or ts i j _ _ hj with hv2 | hv2
          · have hpw : prev = w := by simpa using hv2
            subst hpw
            exact land_mask_ne_zero_of_testBit _ _ 28 hwbit (by decide)
          · exact hdirty j prev hv2
    | rdok w ts i prev hi hp =>
      unfold FRInv
      dsimp only at hlen hword hW hclause ⊢
      have e1 := sum_map_set cHoldR ts i FRThread.holdR (FRThread.rdpending prev) hi
      have e2 := sum_map_set cPend ts i FRThread.holdR (FRThread.rdpending prev) hi
      have e3 := sum_map_set cHoldW ts i FRThread.holdR (FRThread.rdpending prev) hi
      simp only [cHoldR, cPend, cHoldW] at e1 e2 e3
      have hW0 : nHoldW ts = 0 := by
        by_contra hW1
        have hW1 : nHoldW ts = 1 := by omega
        obtain ⟨hR0, hdirty⟩ := hclause hW1
        exact hdirty i prev hi hp
      refine ⟨by simpa using hlen, wwf, hwwf, ?_, ?_, ?_⟩
      · simp only [nHoldR, nPend, nHoldW, STATE_WRITER, STATE_WRITER_WAITING] at hword hW0 ⊢
        omega
      · simp only [nHoldW] at hW0 ⊢
        omega
      · intro hW2
        simp only [nHoldW] at hW2 hW0
        omega
    | rdfail w ts i prev hi hp =>
      unfold FRInv
      dsimp only at hlen hword hW hclause ⊢
      have e1 := sum_map_set cHoldR ts i FRThread.idle (FRThread.rdpending prev) hi
      have e2 := sum_map_set cPend ts i FRThread.idle (FRThread.rdpending prev) hi
      have e3 := sum_map_set cHoldW ts i FRThread.idle (FRThread.rdpending prev) hi
      simp only [cHoldR, cPend, cHoldW] at e1 e2 e3
      refine ⟨by simpa using hlen, wwf, hwwf, ?_, ?_, ?_⟩
      · simp only [nHoldR, nPend, nHoldW, STATE_WRITER, STATE_WRITER_WAITING] at hword ⊢
        omega
      · simp only [nHoldW] at hW ⊢
        omega
      · intro hW2
        simp only [nHoldW] at hW2
        have hW1 : nHoldW ts = 1 := by simp only [nHoldW]; omega
        obtain ⟨hR0, hdirty⟩ := hclause hW1
        refine ⟨?_, ?_⟩
        · simp only [nHoldR] at hR0 ⊢
          omega
        · exact pending_preserved ts i _ (fun p => by simp) hdirty
    | wrcas w ts i hi hw =>
      unfold FRInv
      dsimp only at hlen hword hW hclause ⊢
      have e1 := sum_map_set cHoldR ts i FRThread.holdW FRThread.idle hi
      have e2 := sum_map_set cPend ts i FRThread.holdW FRThread.idle hi
      have e3 := sum_map_set cHoldW ts i FRThread.holdW FRThread.idle hi
      simp only [cHoldR, cPend, cHoldW] at e1 e2 e3
      have hSle : nHoldR ts + nPend ts ≤ ts.length := readers_pend_le_length ts
      have hzero : nHoldR ts + nPend ts = 0 ∧ nHoldW ts = 0 := by
        simp only [STATE_WRITER, STATE_WRITER_WAITING] at hword
        rcases hw with hw | hw
        · rw [hw] at hword
          constructor <;> omega
        · simp only [STATE_WRITER_WAITING] at hw
          rw [hw] at hword
          constructor <;> omega
      refine ⟨by simpa using hlen, 0, by omega, ?_, ?_, ?_⟩
      · simp only [nHoldR, nPend, nHoldW, STATE_WRITER, STATE_WRITER_WAITING] at hzero ⊢
        omega
      · simp only [nHoldW] at hzero ⊢
        omega
      · intro hW2
        refine ⟨?_, ?_⟩
        · simp only [nHoldR, nPend] at hzero ⊢
          omega
        · intro j prev hj
          rcases getElem?_set_or ts i j _ _ hj with hv2 | hv2
          · exact absurd hv2 (by simp)
          · exact absurd hv2 (no_pending_of_sum_zero ts (by simp only [nPend] at hzero ⊢; omega) j prev)
    | wrww w ts i hi hg =>
      unfold FRInv
      dsimp only at hlen hword hW hclause ⊢
      have hSle : nHoldR ts + nPend ts ≤ ts.length := readers_pend_le_length ts
      have hww : STATE_WRITER_WAITING = 2 ^ 29 := by decide
      have hm : nHoldR ts + nPend ts + nHoldW ts * STATE_WRITER < 2 ^ 29 := by
        simp only [STATE_WRITER]
        omega
      have hlor : w ||| STATE_WRITER_WAITING =
          nHoldR ts + nPend ts + nHoldW ts * STATE_WRITER + STATE_WRITER_WAITING := by
        rcases Nat.le_one_iff_eq_zero_or_eq_one.mp hwwf with h0 | h1
        · rw [h0] at hword
          simp only [Nat.zero_mul, Nat.add_zero] at hword
          rw [hww, hword]
          exact lor_two_pow_of_lt hm
        · rw [h1] at hword
          simp only [Nat.one_mul, hww] at hword
          have hbit : w.testBit 29 = true := by
            rw [Nat.testBit_to_div_mod]
            simp only [decide_eq_true_eq]
            omega
          rw [hww, lor_two_pow_of_testBit hbit, hword]
      refine ⟨by simpa using hlen, 1, by omega, ?_, by simpa using hW, ?_⟩
      · rw [hlor]
        omega
      · intro hW2
        exact hclause (by simpa using hW2)
    | unlockw w ts i hi =>
      unfold FRInv
      dsimp only at hlen hword hW hclause ⊢
      have e1 := sum_map_set cHoldR ts i FRThread.idle FRThread.holdW hi
      have e2 := sum_map_set cPend ts i FRThread.idle FRThread.holdW hi
      have e3 := sum_map_set cHoldW ts i FRThread.idle FRThread.holdW hi
      simp only [cHoldR, cPend, cHoldW] at e1 e2 e3
      have hWge : 1 ≤ nHoldW ts := by
        have hc := contrib_le_of_getElem cHoldW ts i _ hi
        simpa [cHoldW, nHoldW] using hc
      refine ⟨by simpa using hlen, wwf, hwwf, ?_, ?_, ?_⟩
      · simp only [nHoldR, nPend, nHoldW, STATE_WRITER, STATE_WRITER_WAITING] at hword hW hWge ⊢
        omega
      · simp only [nHoldW] at hW ⊢
        omega
      · intro hW2
        simp only [nHoldW] at hW2 hW hWge
        omega
    | unlockr w ts i hi =>
      unfold FRInv
      dsimp only at hlen hword hW hclause ⊢
      have e1 := sum_map_set cHoldR ts i FRThread.idle FRThread.holdR hi
      have e2 := sum_map_set cPend ts i FRThread.idle FRThread.holdR hi
      have e3 := sum_map_set cHoldW ts i FRThread.idle FRThread.holdR hi
      simp only [cHoldR, cPend, cHoldW] at e1 e2 e3
      have hRge : 1 ≤ nHoldR ts := by
        have hc := contrib_le_of_getElem cHoldR ts i _ hi
        simpa [cHoldR, nHoldR] using hc
      have hW0 : nHoldW ts = 0 := by
        by_contra hW1
        have hW1 : nHoldW ts = 1 := by omega
        obtain ⟨hR0, hdirty⟩ := hclause hW1
        omega
      refine ⟨by simpa using hlen, wwf, hwwf, ?_, ?_, ?_⟩
      · simp only [nHoldR, nPend, nHoldW, STATE_WRITER, STATE_WRITER_WAITING] at hword hW0 hRge ⊢
        omega
      · simp only [nHoldW] at hW0 ⊢
        omega
      · intro hW2
        simp only [nHoldW] at hW2 hW0
        omega

/-- Claim C7 counterexample: with two threads starting from the initial word
0, thread 0 loads a clean word inside rdlock, thread 1 then acquires the
write lock by compare-and-swap, and thread 0 performs its speculative
fetch_add. The resulting state word has the WRITER bit set while its
READER_COUNT field is 1, refuting the claim that every reachable word value
keeps READER_COUNT at 0 whenever WRITER is set. -/
theorem frsv_word_writer_with_reader_reachable :
    FRReach 2 (STATE_WRITER + 1, [FRThread.rdpending STATE_WRITER, FRThread.holdW]) ∧
    (STATE_WRITER + 1) &&& STATE_WRITER ≠ 0 ∧
    (STATE_WRITER + 1) &&& STATE_READER_COUNT_MASK = 1 := by
  refine ⟨?_, by decide, by decide⟩
  have s1 : FRStep (0, [FRThread.idle, FRThread.idle])
      (0, [FRThread.rdloaded 0, FRThread.idle]) :=
    FRStep.rdload 0 [FRThread.idle, FRThread.idle] 0 rfl
  have s2 : FRStep (0, [FRThread.rdloaded 0, FRThread.idle])
      (STATE_WRITER, [FRThread.rdloaded 0, FRThread.holdW]) :=
    FRStep.wrcas 0 [FRThread.rdloaded 0, FRThread.idle] 1 rfl (Or.inl rfl)
  have s3 : FRStep (STATE_WRITER, [FRThread.rdloaded 0, FRThread.holdW])
      (STATE_WRITER + 1, [FRThread.rdpending STATE_WRITER, FRThread.holdW]) :=
    FRStep.rdinc STATE_WRITER [FRThread.rdloaded 0, FRThread.holdW] 0 0 rfl
      (by decide) (by decide)
  exact FRReach.step _ _ (FRReach.step _ _ (FRReach.step _ _ FRReach.init s1) s2) s3

/-- Claim C7 amended: in every reachable configuration of the state word
under interleaved lock, trylock and unlock operations (with fewer threads
than the reader-count field can hold), mutual exclusion holds for lock
holders: while the WRITER bit is set no thread holds a read lock, and the
READER_COUNT field counts exactly the speculative rdlock increments that are
about to be backed out; conversely, while any thread holds a read lock the
WRITER bit is clear. -/
theorem frsv_holder_exclusion (n : Nat) (hn : n ≤ STATE_READER_COUNT_MASK)
    (w : Nat) (ts : List FRThread) (h : FRReach n (w, ts)) :
    (w &&& STATE_WRITER ≠ 0 →
      (∀ j : Nat, ts[j]? ≠ some FRThread.holdR) ∧
      w &&& STATE_READER_COUNT_MASK = nPend ts) ∧
    (nHoldR ts ≠ 0 → w &&& STATE_WRITER = 0) := by
  obtain ⟨hlen, wwf, hwwf, hword, hW, hclause⟩ := frinv_of_reach n hn (w, ts) h
  dsimp only at hlen hword hW hclause
  have hSle := readers_pend_le_length ts
  simp only [STATE_READER_COUNT_MASK] at hn
  have h26 : (2 : Nat) ^ 26 = 67108864 := by decide
  have h28 : (2 : Nat) ^ 28 = 268435456 := by decide
  have hmask : w &&& STATE_READER_COUNT_MASK = w % 2 ^ 26 := by
    rw [show STATE_READER_COUNT_MASK = 2 ^ 26 - 1 from by decide]
    exact Nat.and_pow_two_sub_one_eq_mod w 26
  have hwriter : w &&& STATE_WRITER = (w.testBit 28).toNat * 2 ^ 28 := by
    rw [show STATE_WRITER = 2 ^ 28 from by decide]
    exact Nat.and_two_pow w 28
  simp only [STATE_WRITER, STATE_WRITER_WAITING] at hword
  rcases Nat.le_one_iff_eq_zero_or_eq_one.mp hW with hW0 | hW1
  · -- no thread holds the write lock: the WRITER bit is clear
    have hbit : w.testBit 28 = false := by
      rw [Nat.testBit_to_div_mod]
      simp only [decide_eq_false_iff_not]
      rw [h28]
      omega
    have hband : w &&& STATE_WRITER = 0 := by
      rw [hwriter, hbit]
      rfl
    exact ⟨fun hcontra => absurd hband hcontra, fun _ => hband⟩
  · -- a thread holds the write lock
    obtain ⟨hR0, hdirty⟩ := hclause hW1
    refine ⟨fun _ => ⟨fun j => no_holdR_of_sum_zero ts hR0 j, ?_⟩,
            fun hR => absurd hR0 hR⟩
    rw [hmask, h26]
    omega

/-- Witness for the amended claim C7: with one thread that acquired the
write lock from the initial word, the theorem yields that nobody holds a
read lock and the reader-count field is 0. -/
theorem frsv_holder_exclusion_witness :
    (1 ≤ STATE_READER_COUNT_MASK) ∧
    FRReach 1 (STATE_WRITER, [FRThread.holdW]) ∧
    ((STATE_WRITER &&& STATE_WRITER ≠ 0 →
       (∀ j : Nat, ([FRThread.holdW] : List FRThread)[j]? ≠ some FRThread.holdR) ∧
       STATE_WRITER &&& STATE_READER_COUNT_MASK = nPend [FRThread.holdW]) ∧
     (nHoldR [FRThread.holdW] ≠ 0 → STATE_WRITER &&& STATE_WRITER = 0)) :=
  ⟨by decide,
   FRReach.step _ _ FRReach.init (FRStep.wrcas 0 [FRThread.idle] 0 rfl (Or.inl rfl)),
   frsv_holder_exclusion 1 (by decide) STATE_WRITER [FRThread.holdW]
     (FRReach.step _ _ FRReach.init (FRStep.wrcas 0 [FRThread.idle] 0 rfl (Or.inl rfl)))⟩

end RsrvModel
